import Mathlib

/-!
Verification development for the preference-and-ranking engine in
`src/agent/agent_core.py` together with the subset-refresh and startup-check
logic of `src/server/server.py`.

Modelling conventions:
* Python floats are modelled as exact rationals (`ℚ`) where only field
  arithmetic and comparisons occur, and as real numbers (`ℝ`) where the code
  applies `math.exp` / real exponentiation (`10 ** x`).
* The nested JSON dictionaries read through `safe_get(d, path, default)` are
  modelled as records with `Option` leaves: a missing intermediate level and a
  missing leaf are observationally identical in the source, both produce the
  default.
* Python dicts keyed by option id are modelled as total functions
  `String → _` together with the insertion-ordered key list (`tracked`,
  `uni_ids`); `dict.get(k, default)` reads check the key list first.
* Python's `str.strip`, `str.lower`, `str.replace(",", ".")` are modelled
  character-wise (`pyStrip`, `pyLower`, `commaToDot`).
-/

/-- The value of `fees.tuition`: a dict read by `money_amount` via `.get("amount")`. -/
structure Money where
  amount : Option ℚ
  currency : Option String
deriving DecidableEq

/-- One catalog option (university record).  Each field records the leaf of the
`safe_get` path used by `agent_core.py`; `Option` marks leaves whose absence the
code resolves with a default. -/
structure Uni where
  /-- `u["id"]` -/
  id : String
  /-- `safe_get(uni, ["offer","accreditations"], [])` -/
  accreditations : List String
  /-- `bool(safe_get(uni, ["admissions","requires_portfolio"], False))` -/
  requires_portfolio : Bool
  /-- `safe_get(uni, ["campus","setting"], None)` -/
  campus_setting : Option String
  /-- `safe_get(uni, ["fees","tuition"], None)` -/
  tuition : Option Money
  /-- `safe_get(uni, ["offer","student_staff_ratio"], None)` -/
  student_staff_ratio : Option ℚ
  /-- `safe_get(uni, ["admissions","english_min","ielts_overall"], None)` -/
  ielts_overall : Option ℚ
  /-- `bool(safe_get(uni, ["campus","pmr_ok"], False))` -/
  pmr_ok : Bool
deriving DecidableEq

instance : Inhabited Uni := ⟨⟨"", [], false, none, none, none, none, false⟩⟩

/-- The requester profile (student record), with the leaves `soft_fit` and
`apply_answers` read or write. -/
structure Student where
  /-- `safe_get(student, ["academics","grades","arts_plastiques"], None)` -/
  arts_plastiques : Option ℚ
  /-- `safe_get(student, ["preferences","campus_setting"], None)` -/
  campus_pref : Option String
  /-- `safe_get(student, ["budget","annual_total","amount"], None)` -/
  budget_amount : Option ℚ
  /-- `student["budget"]["annual_total"]["currency"]` (written by `apply_answers`) -/
  budget_currency : Option String
  /-- `safe_get(student, ["academics","english","score"], None)` -/
  ielts_score : Option ℚ
  /-- `bool(safe_get(student, ["constraints","pmr"], False))` -/
  pmr : Bool
deriving DecidableEq

/-- `money_amount`: `None` for a falsy dict, else `d.get("amount")`. -/
def money_amount (d : Option Money) : Option ℚ :=
  match d with
  | none => none
  | some m => m.amount

/-- Python truthiness of an optional string (`None` and `""` are falsy). -/
def truthyStr : Option String → Bool
  | none => false
  | some s => !(s == "")

/-- The per-criterion breakdown produced by `soft_fit` (the keys of the weight
dict `w`, in source order). -/
structure Breakdown where
  accreditation : ℚ
  portfolio : ℚ
  campus_setting : ℚ
  budget_gap : ℚ
  student_staff_ratio : ℚ
  english_ready : ℚ
  accessibility_pmr : ℚ
deriving DecidableEq

/-- The fixed weight dict `w` of `soft_fit`. -/
def fitWeights : Breakdown :=
  ⟨0.24, 0.16, 0.12, 0.18, 0.10, 0.10, 0.10⟩

/-- `sum(w[k] * breakdown[k] for k in w)`. -/
def weightedTotal (w b : Breakdown) : ℚ :=
  w.accreditation * b.accreditation + w.portfolio * b.portfolio +
    w.campus_setting * b.campus_setting + w.budget_gap * b.budget_gap +
    w.student_staff_ratio * b.student_staff_ratio +
    w.english_ready * b.english_ready +
    w.accessibility_pmr * b.accessibility_pmr

/-- Sum of the entries of a weight vector. -/
def weightSum (w : Breakdown) : ℚ :=
  w.accreditation + w.portfolio + w.campus_setting + w.budget_gap +
    w.student_staff_ratio + w.english_ready + w.accessibility_pmr

/-- `breakdown["accreditation"]`: 1.0 iff `"RIBA" in acc or "ARB" in acc`. -/
def acc_score (u : Uni) : ℚ :=
  if "RIBA" ∈ u.accreditations ∨ "ARB" ∈ u.accreditations then 1 else 0

/-- `arts_grade is not None and arts_grade >= 14`. -/
def portfolio_ready_hint (s : Student) : Bool :=
  match s.arts_plastiques with
  | some g => decide (14 ≤ g)
  | none => false

/-- `breakdown["portfolio"]`: 1.0 if no portfolio is required or the profile
hints portfolio readiness, else the penalty 0.4. -/
def portfolio_score (s : Student) (u : Uni) : ℚ :=
  if !u.requires_portfolio || portfolio_ready_hint s then 1 else 0.4

/-- `breakdown["campus_setting"]`: exact match 1.0, urban/suburban near-match
0.5, mismatch 0.0; neutral 0.5 when either side is falsy. -/
def campus_score (s : Student) (u : Uni) : ℚ :=
  if truthyStr s.campus_pref ∧ truthyStr u.campus_setting then
    if s.campus_pref = u.campus_setting then 1
    else if (s.campus_pref = some "urban" ∨ s.campus_pref = some "suburban") ∧
        (u.campus_setting = some "urban" ∨ u.campus_setting = some "suburban") then 0.5
    else 0
  else 0.5

/-- `breakdown["budget_gap"]`: step function of
`budget_eur - (tuition + living_gbp) * 1.15`, neutral 0.6 on missing data. -/
def budget_score (s : Student) (u : Uni) : ℚ :=
  let living_gbp : ℚ := 12000 + (if u.campus_setting = some "urban" then 3000 else 0)
  match money_amount u.tuition, s.budget_amount with
  | some tuition, some budget_eur =>
    let total_eur := (tuition + living_gbp) * 1.15
    let gap := budget_eur - total_eur
    if 5000 ≤ gap then 1
    else if 0 ≤ gap then 0.8
    else if -5000 < gap then 0.5
    else 0.2
  | _, _ => 0.6

/-- `breakdown["student_staff_ratio"]`: step function of the ratio, neutral 0.6
when absent. -/
def ssr_score (u : Uni) : ℚ :=
  match u.student_staff_ratio with
  | none => 0.6
  | some ssr =>
    if ssr ≤ 12 then 1
    else if ssr ≤ 16 then 0.8
    else if ssr ≤ 20 then 0.6
    else 0.4

/-- `breakdown["english_ready"]`: step function of
`ielts_score - ielts_needed`, with defaults 0.7 (no requirement) and 0.6
(no student score). -/
def english_score (s : Student) (u : Uni) : ℚ :=
  match u.ielts_overall with
  | none => 0.7
  | some needed =>
    match s.ielts_score with
    | none => 0.6
    | some sc =>
      let diff := sc - needed
      if 0.5 ≤ diff then 1
      else if 0 ≤ diff then 0.8
      else if -0.5 ≤ diff then 0.6
      else 0.3

/-- `breakdown["accessibility_pmr"]`: 1.0 unless the student needs PMR access
and the campus lacks it, in which case 0.3. -/
def pmr_score (s : Student) (u : Uni) : ℚ :=
  if !s.pmr || u.pmr_ok then 1 else 0.3

/-- `soft_fit(student, uni) -> (score, breakdown)`: the deterministic
attribute-fit scorer of `agent_core.py` (lines 31-92). -/
def soft_fit (s : Student) (u : Uni) : ℚ × Breakdown :=
  let breakdown : Breakdown :=
    ⟨acc_score u, portfolio_score s u, campus_score s u, budget_score s u,
      ssr_score u, english_score s u, pmr_score s u⟩
  (weightedTotal fitWeights breakdown, breakdown)

/-- A sub-score lies in the unit interval. -/
def InUnit (q : ℚ) : Prop := 0 ≤ q ∧ q ≤ 1

theorem acc_score_unit (u : Uni) : InUnit (acc_score u) := by
  unfold acc_score InUnit; split <;> norm_num

theorem portfolio_score_unit (s : Student) (u : Uni) : InUnit (portfolio_score s u) := by
  unfold portfolio_score InUnit
  split_ifs <;> norm_num

theorem campus_score_unit (s : Student) (u : Uni) : InUnit (campus_score s u) := by
  unfold campus_score InUnit; split_ifs <;> norm_num

theorem budget_score_unit (s : Student) (u : Uni) : InUnit (budget_score s u) := by
  unfold budget_score InUnit
  rcases money_amount u.tuition with _ | t <;> rcases s.budget_amount with _ | b <;>
    simp only [] <;> norm_num <;> split_ifs <;> norm_num

theorem ssr_score_unit (u : Uni) : InUnit (ssr_score u) := by
  unfold ssr_score InUnit
  rcases u.student_staff_ratio with _ | r <;> simp only [] <;> norm_num <;>
    split_ifs <;> norm_num

theorem english_score_unit (s : Student) (u : Uni) : InUnit (english_score s u) := by
  unfold english_score InUnit
  rcases u.ielts_overall with _ | n <;> rcases s.ielts_score with _ | sc <;>
    simp only [] <;> norm_num <;> split_ifs <;> norm_num

theorem pmr_score_unit (s : Student) (u : Uni) : InUnit (pmr_score s u) := by
  unfold pmr_score InUnit; split <;> norm_num

theorem weightedTotal_fitWeights_unit (b : Breakdown)
    (h1 : InUnit b.accreditation) (h2 : InUnit b.portfolio)
    (h3 : InUnit b.campus_setting) (h4 : InUnit b.budget_gap)
    (h5 : InUnit b.student_staff_ratio) (h6 : InUnit b.english_ready)
    (h7 : InUnit b.accessibility_pmr) :
    InUnit (weightedTotal fitWeights b) := by
  obtain ⟨a1, a2⟩ := h1; obtain ⟨b1, b2⟩ := h2; obtain ⟨c1, c2⟩ := h3
  obtain ⟨d1, d2⟩ := h4; obtain ⟨e1, e2⟩ := h5; obtain ⟨f1, f2⟩ := h6
  obtain ⟨g1, g2⟩ := h7
  unfold weightedTotal fitWeights InUnit
  constructor <;> nlinarith

/-- Claim C1: for every student profile and every catalog option, each
`soft_fit` sub-score lies in `[0,1]`, the overall score lies in `[0,1]`, the
overall score is exactly the weighted sum of the sub-scores under the fixed
weight vector `fitWeights`, and that weight vector sums to `1`. -/
theorem soft_fit_subscores_and_total_bounded (s : Student) (u : Uni) :
    InUnit (soft_fit s u).2.accreditation ∧
    InUnit (soft_fit s u).2.portfolio ∧
    InUnit (soft_fit s u).2.campus_setting ∧
    InUnit (soft_fit s u).2.budget_gap ∧
    InUnit (soft_fit s u).2.student_staff_ratio ∧
    InUnit (soft_fit s u).2.english_ready ∧
    InUnit (soft_fit s u).2.accessibility_pmr ∧
    (soft_fit s u).1 = weightedTotal fitWeights (soft_fit s u).2 ∧
    weightSum fitWeights = 1 ∧
    InUnit (soft_fit s u).1 := by
  refine ⟨acc_score_unit u, portfolio_score_unit s u, campus_score_unit s u,
    budget_score_unit s u, ssr_score_unit u, english_score_unit s u,
    pmr_score_unit s u, rfl, by norm_num [weightSum, fitWeights], ?_⟩
  exact weightedTotal_fitWeights_unit _ (acc_score_unit u)
    (portfolio_score_unit s u) (campus_score_unit s u) (budget_score_unit s u)
    (ssr_score_unit u) (english_score_unit s u) (pmr_score_unit s u)

/-- `ELO_K = 24.0` -/
def ELO_K : ℝ := 24

/-- `BTL_LR = 0.08` -/
def BTL_LR : ℝ := 0.08

/-- `INITIAL_PREF = 1000.0` -/
def INITIAL_PREF : ℝ := 1000

/-- `ALPHA_START = 0.65` -/
def ALPHA_START : ℚ := 0.65

/-- `PreferenceModel`: the two rating dicts (`elo`, `btl`), modelled as total
functions plus their shared insertion-ordered key list `tracked` (the source
keeps both dicts keyed identically: they are created together and `ensure`
extends both). -/
structure PreferenceModel where
  elo : String → ℝ
  btl : String → ℝ
  tracked : List String
  use_btl : Bool

/-- `PreferenceModel.__init__`: every listed id rated `INITIAL_PREF` / `0.0`.
The constant functions also assign the dict-lookup defaults outside `tracked`,
which is what every `.get(uid, default)` read observes. -/
def PreferenceModel.init (uni_ids : List String) (use_btl : Bool) : PreferenceModel :=
  ⟨fun _ => INITIAL_PREF, fun _ => 0, uni_ids, use_btl⟩

/-- `PreferenceModel.ensure`. -/
def PreferenceModel.ensure (pm : PreferenceModel) (uid : String) : PreferenceModel :=
  { pm with
    elo := if uid ∈ pm.tracked then pm.elo else Function.update pm.elo uid INITIAL_PREF,
    btl := if uid ∈ pm.tracked then pm.btl else Function.update pm.btl uid 0,
    tracked := if uid ∈ pm.tracked then pm.tracked else pm.tracked ++ [uid] }

theorem ensure_of_mem {pm : PreferenceModel} {uid : String} (h : uid ∈ pm.tracked) :
    pm.ensure uid = pm := by
  simp [PreferenceModel.ensure, h]

/-- `PreferenceModel.prob_btl`: `1.0 / (1.0 + math.exp(-(si - sj)))`. -/
noncomputable def PreferenceModel.prob_btl (pm : PreferenceModel) (i j : String) : ℝ :=
  1 / (1 + Real.exp (-(pm.btl i - pm.btl j)))

/-- The expected win probability `Ew = 1.0 / (1.0 + 10 ** ((rl - rw) / 400.0))`
computed by `update_pair` from the post-`ensure` ratings. -/
noncomputable def eloExpected (pm : PreferenceModel) (winner loser : String) : ℝ :=
  1 / (1 + (10 : ℝ) ^ ((pm.elo loser - pm.elo winner) / 400))

/-- `PreferenceModel.update_pair` (lines 108-117): `ensure` both ids, then the
zero-sum Elo update followed (when `use_btl`) by the zero-sum Bradley-Terry
update.  The two dict assignments are sequential `Function.update`s, and the
loser's `-=` reads the value already written for the winner, which matters when
`winner = loser`. -/
noncomputable def PreferenceModel.update_pair (pm : PreferenceModel) (winner loser : String) :
    PreferenceModel :=
  let pm1 := (pm.ensure winner).ensure loser
  let rw := pm1.elo winner
  let rl := pm1.elo loser
  let Ew := eloExpected pm1 winner loser
  let elo1 := Function.update pm1.elo winner (rw + ELO_K * (1 - Ew))
  let elo2 := Function.update elo1 loser (rl + ELO_K * (0 - (1 - Ew)))
  let btl2 :=
    if pm1.use_btl then
      let p := pm1.prob_btl winner loser
      let btl1 := Function.update pm1.btl winner (pm1.btl winner + BTL_LR * (1 - p))
      Function.update btl1 loser (btl1 loser - BTL_LR * (1 - p))
    else pm1.btl
  { pm1 with elo := elo2, btl := btl2 }

theorem eloExpected_pos (pm : PreferenceModel) (w l : String) : 0 < eloExpected pm w l := by
  have hp : (0 : ℝ) < (10 : ℝ) ^ ((pm.elo l - pm.elo w) / 400) :=
    Real.rpow_pos_of_pos (by norm_num) _
  have h1p : (0 : ℝ) < 1 + (10 : ℝ) ^ ((pm.elo l - pm.elo w) / 400) := by linarith
  exact div_pos one_pos h1p

theorem eloExpected_lt_one (pm : PreferenceModel) (w l : String) : eloExpected pm w l < 1 := by
  have hp : (0 : ℝ) < (10 : ℝ) ^ ((pm.elo l - pm.elo w) / 400) :=
    Real.rpow_pos_of_pos (by norm_num) _
  have h1p : (0 : ℝ) < 1 + (10 : ℝ) ^ ((pm.elo l - pm.elo w) / 400) := by linarith
  rw [eloExpected, div_lt_one h1p]
  linarith

theorem update_pair_elo_eq (pm : PreferenceModel) (A B : String)
    (hA : A ∈ pm.tracked) (hB : B ∈ pm.tracked) (hAB : A ≠ B) :
    (pm.update_pair A B).elo A = pm.elo A + ELO_K * (1 - eloExpected pm A B) ∧
    (pm.update_pair A B).elo B = pm.elo B - ELO_K * (1 - eloExpected pm A B) := by
  unfold PreferenceModel.update_pair
  rw [ensure_of_mem hA, ensure_of_mem hB]
  constructor
  · simp [Function.update_noteq hAB, Function.update_same]
  · simp [Function.update_same]; ring

/-- Claim C3: for distinct tracked option ids `A ≠ B`, `update_pair A B`
strictly increases the Elo rating of `A`, strictly decreases the Elo rating of
`B`, and leaves the sum of the two ratings unchanged (zero-sum update). -/
theorem update_pair_strict_and_zero_sum (pm : PreferenceModel) (A B : String)
    (hA : A ∈ pm.tracked) (hB : B ∈ pm.tracked) (hAB : A ≠ B) :
    pm.elo A < (pm.update_pair A B).elo A ∧
    (pm.update_pair A B).elo B < pm.elo B ∧
    (pm.update_pair A B).elo A + (pm.update_pair A B).elo B = pm.elo A + pm.elo B := by
  obtain ⟨hA', hB'⟩ := update_pair_elo_eq pm A B hA hB hAB
  have hlt : eloExpected pm A B < 1 := eloExpected_lt_one pm A B
  have hKpos : (0 : ℝ) < ELO_K := by norm_num [ELO_K]
  have hstep : 0 < ELO_K * (1 - eloExpected pm A B) := by
    apply mul_pos hKpos; linarith
  refine ⟨?_, ?_, ?_⟩
  · rw [hA']; linarith
  · rw [hB']; linarith
  · rw [hA', hB']; ring

/-- Witness for claim C3 at a concrete two-option model. -/
theorem update_pair_strict_and_zero_sum_witness :
    let pm : PreferenceModel := PreferenceModel.init ["a", "b"] true
    "a" ∈ pm.tracked ∧ "b" ∈ pm.tracked ∧ "a" ≠ "b" ∧
      (pm.elo "a" < (pm.update_pair "a" "b").elo "a" ∧
        (pm.update_pair "a" "b").elo "b" < pm.elo "b" ∧
        (pm.update_pair "a" "b").elo "a" + (pm.update_pair "a" "b").elo "b" =
          pm.elo "a" + pm.elo "b") :=
  ⟨by decide, by decide, by decide,
    update_pair_strict_and_zero_sum _ "a" "b" (by decide) (by decide) (by decide)⟩

/-- The mutable session state of `MatchingAgent` (lines 119-142).  The dict
`self.unis` (id → option record, last write wins) is a total function with a
junk default, read only at ids from `uni_ids`.  The two score caches are
write-only in the whole repository; their contents are carried so that cache
invalidation is observable.  Bookkeeping the claims never read
(`exclusions`, `per_uni_questions_count`) is omitted. -/
structure MatchingAgent where
  student : Student
  unis : String → Uni
  uni_ids : List String
  pref : PreferenceModel
  alpha : ℚ
  seen : List String
  shortlist : List String
  asked_slots : List String
  soft_cache : List (String × ℚ)
  hybrid_cache : List (String × ℝ)
  triplet : List String

/-- `self.pref.elo.get(uid, INITIAL_PREF)`. -/
def eloOf (pm : PreferenceModel) (uid : String) : ℝ :=
  if uid ∈ pm.tracked then pm.elo uid else INITIAL_PREF

/-- `self.pref.btl.get(uid, 0.0)`. -/
def btlOf (pm : PreferenceModel) (uid : String) : ℝ :=
  if uid ∈ pm.tracked then pm.btl uid else 0

/-- `min(list)` on a nonempty list (the empty case never arises: the source
would raise). -/
noncomputable def listMin : List ℝ → ℝ
  | [] => 0
  | x :: xs => xs.foldl min x

/-- `max(list)` on a nonempty list. -/
noncomputable def listMax : List ℝ → ℝ
  | [] => 0
  | x :: xs => xs.foldl max x

/-- `(soft_fit(self.student, self.unis[uid]))[0]`, the pure value computed by
`score_uni` (the method also stores it in the write-only `soft_cache`). -/
def fitScore (st : MatchingAgent) (uid : String) : ℚ :=
  (soft_fit st.student (st.unis uid)).1

/-- The Elo min-max normalisation step of `hybrid_score` (lines 152-158):
`elo01 = (elo - mn) / (mx - mn + 1e-6)` over all currently-tracked ratings
when at least two are tracked, else the fixed midpoint `0.5`. -/
noncomputable def eloNorm (st : MatchingAgent) (uid : String) : ℝ :=
  let elo := eloOf st.pref uid
  let elo_vals := st.pref.tracked.map st.pref.elo
  if 2 ≤ elo_vals.length then
    (elo - listMin elo_vals) / (listMax elo_vals - listMin elo_vals + 1e-6)
  else 0.5

/-- The Bradley-Terry logistic squash `btl01 = 1 / (1 + exp(-btl_si))`. -/
noncomputable def btlNorm (st : MatchingAgent) (uid : String) : ℝ :=
  1 / (1 + Real.exp (-(btlOf st.pref uid)))

/-- `pref01 = 0.5 * elo01 + 0.5 * btl01`. -/
noncomputable def prefComponent (st : MatchingAgent) (uid : String) : ℝ :=
  0.5 * eloNorm st uid + 0.5 * btlNorm st uid

/-- `MatchingAgent.hybrid_score` (pure value; the method also stores it in the
write-only `hybrid_cache`): `h = alpha * sf + (1 - alpha) * pref01`. -/
noncomputable def hybrid_score (st : MatchingAgent) (uid : String) : ℝ :=
  (st.alpha : ℝ) * (fitScore st uid : ℝ) + (1 - (st.alpha : ℝ)) * prefComponent st uid

/-- `MatchingAgent.feedback_pairwise` (lines 236-239). -/
noncomputable def feedback_pairwise (st : MatchingAgent) (better worse : String) :
    MatchingAgent :=
  { st with
    pref := st.pref.update_pair better worse,
    alpha := max 0.35 (st.alpha - 0.03),
    hybrid_cache := [] }

/-- Claim C2: the hybrid score is exactly
`alpha * fit + (1 - alpha) * preferenceComponent` for the current state, and
one `feedback_pairwise` call updates `alpha` to `max 0.35 (alpha - 0.03)`:
it decreases by the fixed step `0.03`, clamps at the floor `0.35`, and (from
any reachable `alpha`, i.e. one already at or above the floor) never
increases. -/
theorem hybrid_blend_and_alpha_decay (st : MatchingAgent) (uid a b : String)
    (h : 0.35 ≤ st.alpha) :
    hybrid_score st uid =
      (st.alpha : ℝ) * (fitScore st uid : ℝ) + (1 - (st.alpha : ℝ)) * prefComponent st uid ∧
    (feedback_pairwise st a b).alpha = max 0.35 (st.alpha - 0.03) ∧
    (feedback_pairwise st a b).alpha ≤ st.alpha ∧
    0.35 ≤ (feedback_pairwise st a b).alpha := by
  refine ⟨rfl, rfl, ?_, le_max_left _ _⟩
  have : st.alpha - 0.03 ≤ st.alpha := by linarith
  exact max_le h this

/-- A small concrete session state shared by several witnesses: freshly
initialised preference model over two options, starting blend weight. -/
def demoAgent : MatchingAgent :=
  { student := ⟨none, none, none, none, none, false⟩
    unis := fun _ => default
    uni_ids := ["a", "b"]
    pref := PreferenceModel.init ["a", "b"] true
    alpha := ALPHA_START
    seen := []
    shortlist := []
    asked_slots := []
    soft_cache := []
    hybrid_cache := []
    triplet := ["a", "b"] }

/-- Witness for claim C2 at the concrete state `demoAgent`. -/
theorem hybrid_blend_and_alpha_decay_witness :
    0.35 ≤ demoAgent.alpha ∧
    (hybrid_score demoAgent "a" =
      (demoAgent.alpha : ℝ) * (fitScore demoAgent "a" : ℝ) +
        (1 - (demoAgent.alpha : ℝ)) * prefComponent demoAgent "a" ∧
    (feedback_pairwise demoAgent "a" "b").alpha = max 0.35 (demoAgent.alpha - 0.03) ∧
    (feedback_pairwise demoAgent "a" "b").alpha ≤ demoAgent.alpha ∧
    0.35 ≤ (feedback_pairwise demoAgent "a" "b").alpha) :=
  ⟨by norm_num [demoAgent, ALPHA_START],
    hybrid_blend_and_alpha_decay demoAgent "a" "a" "b"
      (by norm_num [demoAgent, ALPHA_START])⟩

theorem foldl_min_le_init (l : List ℝ) (a : ℝ) : l.foldl min a ≤ a := by
  induction l generalizing a with
  | nil => exact le_refl a
  | cons x xs ih => exact le_trans (ih (min a x)) (min_le_left a x)

theorem foldl_min_le_of_mem {x : ℝ} (l : List ℝ) (a : ℝ) (h : x ∈ l) :
    l.foldl min a ≤ x := by
  induction l generalizing a with
  | nil => cases h
  | cons y ys ih =>
    rcases List.mem_cons.mp h with rfl | hy
    · exact le_trans (foldl_min_le_init ys (min a x)) (min_le_right a x)
    · exact ih (min a y) hy

theorem foldl_min_mem (l : List ℝ) (a : ℝ) : l.foldl min a = a ∨ l.foldl min a ∈ l := by
  induction l generalizing a with
  | nil => exact Or.inl rfl
  | cons x xs ih =>
    rcases ih (min a x) with h | h
    · rcases min_choice a x with hc | hc
      · exact Or.inl (by rw [List.foldl_cons, h, hc])
      · exact Or.inr (by rw [List.foldl_cons, h, hc]; exact List.mem_cons_self x xs)
    · exact Or.inr (List.mem_cons_of_mem x h)

theorem init_le_foldl_max (l : List ℝ) (a : ℝ) : a ≤ l.foldl max a := by
  induction l generalizing a with
  | nil => exact le_refl a
  | cons x xs ih => exact le_trans (le_max_left a x) (ih (max a x))

theorem le_foldl_max_of_mem {x : ℝ} (l : List ℝ) (a : ℝ) (h : x ∈ l) :
    x ≤ l.foldl max a := by
  induction l generalizing a with
  | nil => cases h
  | cons y ys ih =>
    rcases List.mem_cons.mp h with rfl | hy
    · exact le_trans (le_max_right a x) (init_le_foldl_max ys (max a x))
    · exact ih (max a y) hy

theorem listMin_le_of_mem {x : ℝ} {l : List ℝ} (h : x ∈ l) : listMin l ≤ x := by
  cases l with
  | nil => cases h
  | cons y ys =>
    rcases List.mem_cons.mp h with rfl | hy
    · exact foldl_min_le_init ys x
    · exact foldl_min_le_of_mem ys y hy

theorem le_listMax_of_mem {x : ℝ} {l : List ℝ} (h : x ∈ l) : x ≤ listMax l := by
  cases l with
  | nil => cases h
  | cons y ys =>
    rcases List.mem_cons.mp h with rfl | hy
    · exact init_le_foldl_max ys x
    · exact le_foldl_max_of_mem ys y hy

theorem listMin_mem {l : List ℝ} (h : l ≠ []) : listMin l ∈ l := by
  cases l with
  | nil => exact absurd rfl h
  | cons y ys =>
    show ys.foldl min y ∈ y :: ys
    rcases foldl_min_mem ys y with h' | h'
    · rw [h']; exact List.mem_cons_self y ys
    · exact List.mem_cons_of_mem y h'

theorem listMin_le_listMax {l : List ℝ} (h : l ≠ []) : listMin l ≤ listMax l := by
  cases l with
  | nil => exact absurd rfl h
  | cons y ys => exact le_trans (foldl_min_le_init ys y) (init_le_foldl_max ys y)

/-- Claim C5 (amended): the Elo normalisation of `hybrid_score` degrades to the
fixed midpoint `0.5` exactly when fewer than 2 options are tracked; with at
least 2 tracked ratings the divisor `mx - mn + 1e-6` is strictly positive
(never a division by zero), the normalised value of any tracked option lies in
`[0,1]`, and when the rating range collapses (all tracked ratings equal) the
normalised value of a tracked option is `0`, not `0.5`. -/
theorem eloNorm_normalization_cases (st : MatchingAgent) (uid : String) :
    ((st.pref.tracked.map st.pref.elo).length < 2 → eloNorm st uid = 0.5) ∧
    (2 ≤ (st.pref.tracked.map st.pref.elo).length →
      0 < listMax (st.pref.tracked.map st.pref.elo) -
          listMin (st.pref.tracked.map st.pref.elo) + 1e-6 ∧
      (uid ∈ st.pref.tracked →
        (0 ≤ eloNorm st uid ∧ eloNorm st uid ≤ 1) ∧
        ((∀ x ∈ st.pref.tracked.map st.pref.elo,
            ∀ y ∈ st.pref.tracked.map st.pref.elo, x = y) →
          eloNorm st uid = 0))) := by
  set vals := st.pref.tracked.map st.pref.elo with hvals
  constructor
  · intro hlt
    unfold eloNorm
    rw [← hvals, if_neg (by omega)]
  · intro hge
    have hne : vals ≠ [] := by
      intro h; rw [h] at hge; simp at hge
    have hmnmx : listMin vals ≤ listMax vals := listMin_le_listMax hne
    have hden : 0 < listMax vals - listMin vals + 1e-6 := by
      have : (0 : ℝ) < 1e-6 := by norm_num
      linarith
    refine ⟨hden, ?_⟩
    intro huid
    have hmem : st.pref.elo uid ∈ vals := List.mem_map_of_mem st.pref.elo huid
    have helo : eloOf st.pref uid = st.pref.elo uid := by
      unfold eloOf; rw [if_pos huid]
    have hval : eloNorm st uid =
        (st.pref.elo uid - listMin vals) / (listMax vals - listMin vals + 1e-6) := by
      unfold eloNorm
      rw [← hvals, if_pos hge, helo]
    constructor
    · constructor
      · rw [hval]
        apply div_nonneg _ (le_of_lt hden)
        have := listMin_le_of_mem hmem
        linarith
      · rw [hval]
        rw [div_le_one hden]
        have := le_listMax_of_mem hmem
        linarith
    · intro hall
      have hmnmem : listMin vals ∈ vals := listMin_mem hne
      have : st.pref.elo uid = listMin vals := hall _ hmem _ hmnmem
      rw [hval, this, sub_self, zero_div]

/-- Witness for claim C5 at the concrete state `demoAgent` (two tracked
options, all ratings equal). -/
theorem eloNorm_normalization_cases_witness :
    2 ≤ (demoAgent.pref.tracked.map demoAgent.pref.elo).length ∧
    "a" ∈ demoAgent.pref.tracked ∧
    (0 ≤ eloNorm demoAgent "a" ∧ eloNorm demoAgent "a" ≤ 1) ∧
    eloNorm demoAgent "a" = 0 := by
  have h2 : 2 ≤ (demoAgent.pref.tracked.map demoAgent.pref.elo).length := by
    simp [demoAgent, PreferenceModel.init]
  have hmem : "a" ∈ demoAgent.pref.tracked := by
    simp [demoAgent, PreferenceModel.init]
  have hall : ∀ x ∈ demoAgent.pref.tracked.map demoAgent.pref.elo,
      ∀ y ∈ demoAgent.pref.tracked.map demoAgent.pref.elo, x = y := by
    simp [demoAgent, PreferenceModel.init]
  have h := ((eloNorm_normalization_cases demoAgent "a").2 h2).2 hmem
  exact ⟨h2, hmem, h.1, h.2 hall⟩

/-- Counterexample for claim C5 as stated: at a state with two tracked options
whose ratings are all equal (the collapsed-range case), the normalised Elo
value is `0`, not the claimed fixed midpoint `0.5`. -/
theorem eloNorm_collapse_not_half :
    2 ≤ (demoAgent.pref.tracked.map demoAgent.pref.elo).length ∧
    (∀ x ∈ demoAgent.pref.tracked.map demoAgent.pref.elo,
      ∀ y ∈ demoAgent.pref.tracked.map demoAgent.pref.elo, x = y) ∧
    "a" ∈ demoAgent.pref.tracked ∧
    eloNorm demoAgent "a" = 0 ∧
    eloNorm demoAgent "a" ≠ 0.5 := by
  refine ⟨by simp [demoAgent, PreferenceModel.init],
    by simp [demoAgent, PreferenceModel.init],
    by simp [demoAgent, PreferenceModel.init], ?_, ?_⟩
  · have hall : ∀ x ∈ demoAgent.pref.tracked.map demoAgent.pref.elo,
        ∀ y ∈ demoAgent.pref.tracked.map demoAgent.pref.elo, x = y := by
      simp [demoAgent, PreferenceModel.init]
    exact (((eloNorm_normalization_cases demoAgent "a").2
      (by simp [demoAgent, PreferenceModel.init])).2
      (by simp [demoAgent, PreferenceModel.init])).2 hall
  · have hall : ∀ x ∈ demoAgent.pref.tracked.map demoAgent.pref.elo,
        ∀ y ∈ demoAgent.pref.tracked.map demoAgent.pref.elo, x = y := by
      simp [demoAgent, PreferenceModel.init]
    have h0 := (((eloNorm_normalization_cases demoAgent "a").2
      (by simp [demoAgent, PreferenceModel.init])).2
      (by simp [demoAgent, PreferenceModel.init])).2 hall
    rw [h0]; norm_num

/-- Claim C10: for a tracked option id `A` (with the Bradley-Terry part
enabled, as every agent-constructed model has), the self-pair feedback
`feedback_pairwise A A` decreases `A`'s Elo rating by exactly
`ELO_K / 2 = 12` — the winner write on key `A` is overwritten by the loser
write computed from the pre-update ratings — leaves `A`'s Bradley-Terry
strength unchanged (the `-=` cancels the `+=` it reads), and still applies the
clamped alpha decay step. -/
theorem feedback_pairwise_self_pair (st : MatchingAgent) (A : String)
    (hA : A ∈ st.pref.tracked) (hb : st.pref.use_btl = true) :
    (feedback_pairwise st A A).pref.elo A = st.pref.elo A - ELO_K / 2 ∧
    ELO_K / 2 = 12 ∧
    (feedback_pairwise st A A).pref.btl A = st.pref.btl A ∧
    (feedback_pairwise st A A).alpha = max 0.35 (st.alpha - 0.03) := by
  have hE : eloExpected st.pref A A = 1 / 2 := by
    unfold eloExpected
    rw [sub_self, zero_div, Real.rpow_zero]
    norm_num
  refine ⟨?_, by norm_num [ELO_K], ?_, rfl⟩
  · show (st.pref.update_pair A A).elo A = _
    unfold PreferenceModel.update_pair
    simp only [ensure_of_mem hA]
    simp only [Function.update_same, hE, ELO_K]
    ring
  · show (st.pref.update_pair A A).btl A = _
    unfold PreferenceModel.update_pair
    simp only [ensure_of_mem hA, hb, if_true]
    simp only [Function.update_same]
    ring

/-- Witness for claim C10 at the concrete state `demoAgent`. -/
theorem feedback_pairwise_self_pair_witness :
    "a" ∈ demoAgent.pref.tracked ∧ demoAgent.pref.use_btl = true ∧
    ((feedback_pairwise demoAgent "a" "a").pref.elo "a" =
        demoAgent.pref.elo "a" - ELO_K / 2 ∧
      ELO_K / 2 = 12 ∧
      (feedback_pairwise demoAgent "a" "a").pref.btl "a" = demoAgent.pref.btl "a" ∧
      (feedback_pairwise demoAgent "a" "a").alpha = max 0.35 (demoAgent.alpha - 0.03)) :=
  ⟨by decide, rfl, feedback_pairwise_self_pair demoAgent "a" (by decide) rfl⟩

/-- ASCII model of Python `str.lower` for one character. -/
def pyLowerChar (c : Char) : Char :=
  if 'A' ≤ c ∧ c ≤ 'Z' then Char.ofNat (c.toNat + 32) else c

/-- Model of Python `str.lower`. -/
def pyLower (s : String) : String := ⟨s.data.map pyLowerChar⟩

/-- Whitespace for the model of Python `str.strip`. -/
def pySpace (c : Char) : Bool := c = ' ' || c = '\t' || c = '\n' || c = '\r'

/-- Model of Python `str.strip`. -/
def pyStrip (s : String) : String :=
  ⟨((s.data.dropWhile pySpace).reverse.dropWhile pySpace).reverse⟩

/-- Model of `str(value).replace(",", ".")` (single-character pattern). -/
def commaToDot (s : String) : String :=
  ⟨s.data.map (fun c => if c = ',' then '.' else c)⟩

/-- Decimal value of a digit run. -/
def digitsVal (cs : List Char) : ℕ :=
  cs.foldl (fun a c => 10 * a + (c.toNat - 48)) 0

/-- Digits of an unsigned decimal literal `digits[.digits]` (at least one digit
required): mantissa and number of decimal places. -/
def pyFloatDigits (cs : List Char) : Option (ℕ × ℕ) :=
  match cs.splitOn '.' with
  | [a] => if a ≠ [] ∧ a.all Char.isDigit then some (digitsVal a, 0) else none
  | [a, b] =>
    if (a ≠ [] ∨ b ≠ []) ∧ a.all Char.isDigit ∧ b.all Char.isDigit then
      some (digitsVal (a ++ b), b.length)
    else none
  | _ => none

/-- Sign, mantissa and decimal places of a Python `float(...)` literal.
Models the plain-decimal subset of the `float` grammar (optional sign,
digits, one optional dot; no exponent / underscores / inf / nan — none of
which the budget-answer flow produces). -/
def pyFloatParse (s : String) : Option (Bool × ℕ × ℕ) :=
  match (pyStrip s).data with
  | [] => none
  | c :: rest =>
    if c = '+' then (pyFloatDigits rest).map (fun p => (false, p))
    else if c = '-' then (pyFloatDigits rest).map (fun p => (true, p))
    else (pyFloatDigits (c :: rest)).map (fun p => (false, p))

/-- `float(str(value))` as an exact rational, `none` when `float` would raise
`ValueError`. -/
def pyFloatOpt (s : String) : Option ℚ :=
  (pyFloatParse s).map (fun p => (if p.1 then -1 else 1) * (p.2.1 : ℚ) / 10 ^ p.2.2)

/-- One entry of `next_questions` (`{"slot": ..., "text": ...}`). -/
structure Question where
  slot : String
  text : String
deriving DecidableEq

/-- `set.add`: membership-preserving insertion into `asked_slots`. -/
def insertSlot (l : List String) (s : String) : List String :=
  if s ∈ l then l else l ++ [s]

theorem mem_insertSlot_self (l : List String) (s : String) : s ∈ insertSlot l s := by
  unfold insertSlot
  split
  · assumption
  · exact List.mem_append_right l (List.mem_singleton.mpr rfl)

/-- `MatchingAgent.next_questions` (lines 197-211): up to `max_q` questions for
the not-yet-asked slots, in the fixed priority order. -/
def next_questions (st : MatchingAgent) (max_q : ℕ) : List Question :=
  ((if "budget_range" ∉ st.asked_slots then
      [Question.mk "budget_range" "Quel budget annuel total (frais + logement + vie) visez-vous (EUR) ?"]
    else []) ++
   (if "need_portfolio" ∉ st.asked_slots then
      [Question.mk "need_portfolio" "Aurez-vous un portfolio prêt d’ici la deadline UCAS ?"]
    else []) ++
   (if "ielts_plan" ∉ st.asked_slots then
      [Question.mk "ielts_plan" "Avez-vous un plan pour l’IELTS (date visée, score cible) ?"]
    else []) ++
   (if "campus_setting" ∉ st.asked_slots then
      [Question.mk "campus_setting" "Préférez-vous un campus urbain, suburbain ou rural ?"]
    else []) ++
   (if "pmr_needs" ∉ st.asked_slots then
      [Question.mk "pmr_needs" "Avez-vous des besoins d’accessibilité (PMR) à prendre en compte ?"]
    else [])).take max_q

/-- One iteration of the `MatchingAgent.apply_answers` loop (lines 213-233).
Total function: every parse failure is swallowed exactly as the source's
`except: pass` / enum guard do. -/
def apply_answer (st : MatchingAgent) (slot value : String) : MatchingAgent :=
  let st1 := { st with asked_slots := insertSlot st.asked_slots slot }
  if slot = "budget_range" then
    let st2 :=
      match pyFloatOpt (commaToDot value) with
      | some amt =>
        { st1 with student :=
            { st1.student with budget_amount := some amt, budget_currency := some "EUR" } }
      | none => st1
    { st2 with soft_cache := [] }
  else if slot = "need_portfolio" then
    { st1 with soft_cache := [] }
  else if slot = "campus_setting" then
    let val := pyLower (pyStrip value)
    if val ∈ (["urban", "suburban", "rural"] : List String) then
      { st1 with student := { st1.student with campus_pref := some val }, soft_cache := [] }
    else st1
  else if slot = "pmr_needs" then
    let flag := decide (pyLower (pyStrip value) ∈ (["yes", "oui", "true", "vrai"] : List String))
    { st1 with student := { st1.student with pmr := flag }, soft_cache := [] }
  else st1

/-- `MatchingAgent.apply_answers`: fold of `apply_answer` over the answer dict
items. -/
def apply_answers (st : MatchingAgent) (answers : List (String × String)) : MatchingAgent :=
  answers.foldl (fun s p => apply_answer s p.1 p.2) st

theorem pyFloatOpt_comma_12000 : pyFloatOpt (commaToDot "12,000") = some 12 := by
  rw [pyFloatOpt,
    show pyFloatParse (commaToDot "12,000") = some (false, 12000, 3) from by decide]
  norm_num

/-- Claim C6 (amended): `apply_answers` on `("budget_range", "12,000")` parses
the value with the comma read as a decimal separator — producing `12.0`, not
`12000.0` — stores it (with currency EUR) in the profile's budget field, and
clears the whole fit-score cache so later attribute-fit reads recompute. -/
theorem apply_budget_comma_behavior (st : MatchingAgent) :
    (apply_answers st [("budget_range", "12,000")]).student.budget_amount = some 12 ∧
    (apply_answers st [("budget_range", "12,000")]).student.budget_currency = some "EUR" ∧
    (apply_answers st [("budget_range", "12,000")]).soft_cache = [] ∧
    "budget_range" ∈ (apply_answers st [("budget_range", "12,000")]).asked_slots := by
  have h : apply_answers st [("budget_range", "12,000")] =
      apply_answer st "budget_range" "12,000" := rfl
  rw [h]
  unfold apply_answer
  rw [if_pos rfl, pyFloatOpt_comma_12000]
  exact ⟨rfl, rfl, rfl, mem_insertSlot_self _ _⟩

/-- Counterexample for claim C6 as stated: the stored budget amount is `12`,
not the claimed `12000`. -/
theorem apply_budget_comma_not_twelve_thousand :
    (apply_answers demoAgent [("budget_range", "12,000")]).student.budget_amount = some 12 ∧
    (apply_answers demoAgent [("budget_range", "12,000")]).student.budget_amount ≠
      some 12000 := by
  have h := (apply_budget_comma_behavior demoAgent).1
  refine ⟨h, ?_⟩
  rw [h]
  intro hc
  have : (12 : ℚ) = 12000 := Option.some.inj hc
  norm_num at this

theorem mem_if_singleton {q x : Question} {c : Prop} [Decidable c]
    (h : q ∈ (if c then [x] else ([] : List Question))) : q = x := by
  split at h
  · exact List.mem_singleton.mp h
  · cases h

/-- Claim C9: answering `campus_setting` with any value whose normalised form
is outside `{urban, suburban, rural}` raises nothing (the transition is a total
function), leaves the whole profile — in particular its campus-setting field —
unchanged, yet marks the category asked, so no later `next_questions` output
mentions the `campus_setting` slot again. -/
theorem apply_invalid_campus_setting (st : MatchingAgent) (v : String)
    (h : pyLower (pyStrip v) ∉ (["urban", "suburban", "rural"] : List String)) :
    (apply_answer st "campus_setting" v).student = st.student ∧
    (apply_answer st "campus_setting" v).student.campus_pref = st.student.campus_pref ∧
    "campus_setting" ∈ (apply_answer st "campus_setting" v).asked_slots ∧
    ∀ m : ℕ, ∀ q ∈ next_questions (apply_answer st "campus_setting" v) m,
      q.slot ≠ "campus_setting" := by
  have hst : apply_answer st "campus_setting" v =
      { st with asked_slots := insertSlot st.asked_slots "campus_setting" } := by
    unfold apply_answer
    rw [if_neg (by decide), if_neg (by decide), if_pos rfl, if_neg h]
  refine ⟨by rw [hst], by rw [hst], by rw [hst]; exact mem_insertSlot_self _ _, ?_⟩
  intro m q hq
  rw [hst] at hq
  have hasked : "campus_setting" ∈ insertSlot st.asked_slots "campus_setting" :=
    mem_insertSlot_self _ _
  have hq' := List.mem_of_mem_take hq
  simp only [List.mem_append] at hq'
  rcases hq' with ((((h1 | h2) | h3) | h4) | h5)
  · rw [mem_if_singleton h1]; decide
  · rw [mem_if_singleton h2]; decide
  · rw [mem_if_singleton h3]; decide
  · rw [if_neg (by simpa using hasked)] at h4
    cases h4
  · rw [mem_if_singleton h5]; decide

/-- Witness for claim C9 at the concrete state `demoAgent` with the invalid
enum value `"mega-city"`. -/
theorem apply_invalid_campus_setting_witness :
    pyLower (pyStrip "mega-city") ∉ (["urban", "suburban", "rural"] : List String) ∧
    ((apply_answer demoAgent "campus_setting" "mega-city").student = demoAgent.student ∧
      (apply_answer demoAgent "campus_setting" "mega-city").student.campus_pref =
        demoAgent.student.campus_pref ∧
      "campus_setting" ∈ (apply_answer demoAgent "campus_setting" "mega-city").asked_slots ∧
      ∀ m : ℕ, ∀ q ∈ next_questions (apply_answer demoAgent "campus_setting" "mega-city") m,
        q.slot ≠ "campus_setting") :=
  ⟨by decide, apply_invalid_campus_setting demoAgent "mega-city" (by decide)⟩

/-- `setting = (uni.get("campus") or {}).get("setting") or "na"`. -/
def settingKey (u : Uni) : String :=
  match u.campus_setting with
  | some s => if s = "" then "na" else s
  | none => "na"

/-- `bucket = "high" if (tuition or 0) >= 28000 else "mid" if ... else "low"`. -/
def tuitionBucket (u : Uni) : String :=
  let t := (money_amount u.tuition).getD 0
  if 28000 ≤ t then "high" else if 22000 ≤ t then "mid" else "low"

/-- `key = (setting, bucket)` of `_diversify_pick`. -/
def pickKey (st : MatchingAgent) (uid : String) : String × String :=
  (settingKey (st.unis uid), tuitionBucket (st.unis uid))

/-- First loop of `_diversify_pick` (lines 170-180): greedily accept a
candidate unless its bucket key was seen and the subset still has at least two
free slots; break as soon as `k` are chosen. -/
def diversifyPhase1 (st : MatchingAgent) (k : ℕ) :
    List String → List String → List (String × String) → List String
  | [], selected, _ => selected
  | uid :: rest, selected, seen_keys =>
    if pickKey st uid ∈ seen_keys ∧ selected.length < k - 1 then
      diversifyPhase1 st k rest selected seen_keys
    else
      if (selected ++ [uid]).length = k then selected ++ [uid]
      else diversifyPhase1 st k rest (selected ++ [uid]) (pickKey st uid :: seen_keys)

/-- Second loop of `_diversify_pick` (lines 181-184): fill remaining slots from
the ranked order, skipping ids already selected. -/
def diversifyPhase2 (k : ℕ) : List String → List String → List String
  | [], selected => selected
  | uid :: rest, selected =>
    if selected.length < k then
      if uid ∈ selected then diversifyPhase2 k rest selected
      else diversifyPhase2 k rest (selected ++ [uid])
    else selected

/-- `MatchingAgent._diversify_pick`: both loops, then `selected[:k]`. -/
def diversify_pick (st : MatchingAgent) (cand_ids : List String) (k : ℕ) : List String :=
  (diversifyPhase2 k cand_ids (diversifyPhase1 st k cand_ids [] [])).take k

/-- `MatchingAgent._select_initial_triplet`: rank all ids by fit score
descending (stable sort, as Python's `sorted`) and diversify-pick 3. -/
def select_initial_triplet (st : MatchingAgent) : List String :=
  diversify_pick st
    (List.insertionSort (fun a b => fitScore st b ≤ fitScore st a) st.uni_ids) 3

theorem diversifyPhase1_sub (st : MatchingAgent) (k : ℕ) :
    ∀ (cand sel : List String) (seen : List (String × String)) (x : String),
      x ∈ diversifyPhase1 st k cand sel seen → x ∈ sel ∨ x ∈ cand := by
  intro cand
  induction cand with
  | nil => intro sel seen x hx; exact Or.inl hx
  | cons uid rest ih =>
    intro sel seen x hx
    rw [diversifyPhase1] at hx
    split_ifs at hx with h1 h2
    · rcases ih sel seen x hx with h | h
      · exact Or.inl h
      · exact Or.inr (List.mem_cons_of_mem _ h)
    · rcases List.mem_append.mp hx with h | h
      · exact Or.inl h
      · exact Or.inr (List.mem_cons.mpr (Or.inl (List.mem_singleton.mp h)))
    · rcases ih (sel ++ [uid]) (pickKey st uid :: seen) x hx with h | h
      · rcases List.mem_append.mp h with h' | h'
        · exact Or.inl h'
        · exact Or.inr (List.mem_cons.mpr (Or.inl (List.mem_singleton.mp h')))
      · exact Or.inr (List.mem_cons_of_mem _ h)

theorem diversifyPhase1_nodup (st : MatchingAgent) (k : ℕ) :
    ∀ (cand sel : List String) (seen : List (String × String)),
      cand.Nodup → sel.Nodup → (∀ x ∈ cand, x ∉ sel) →
      (diversifyPhase1 st k cand sel seen).Nodup := by
  intro cand
  induction cand with
  | nil => intro sel seen _ hsel _; exact hsel
  | cons uid rest ih =>
    intro sel seen hcand hsel hdisj
    have huid : uid ∉ sel := hdisj uid (List.mem_cons_self _ _)
    have hrest : rest.Nodup := (List.nodup_cons.mp hcand).2
    have huidrest : uid ∉ rest := (List.nodup_cons.mp hcand).1
    have hsel' : (sel ++ [uid]).Nodup := by
      rw [List.nodup_append]
      exact ⟨hsel, List.nodup_singleton uid, by
        intro a ha hb
        rw [List.mem_singleton] at hb
        exact huid (hb ▸ ha)⟩
    rw [diversifyPhase1]
    split_ifs with h1 h2
    · exact ih sel seen hrest hsel (fun x hx => hdisj x (List.mem_cons_of_mem _ hx))
    · exact hsel'
    · refine ih (sel ++ [uid]) _ hrest hsel' ?_
      intro x hx hmem
      rcases List.mem_append.mp hmem with h | h
      · exact hdisj x (List.mem_cons_of_mem _ hx) h
      · exact huidrest (List.mem_singleton.mp h ▸ hx)

theorem diversifyPhase2_sub (k : ℕ) :
    ∀ (cand sel : List String) (x : String),
      x ∈ diversifyPhase2 k cand sel → x ∈ sel ∨ x ∈ cand := by
  intro cand
  induction cand with
  | nil => intro sel x hx; exact Or.inl hx
  | cons uid rest ih =>
    intro sel x hx
    rw [diversifyPhase2] at hx
    split_ifs at hx with h1 h2
    · rcases ih sel x hx with h | h
      · exact Or.inl h
      · exact Or.inr (List.mem_cons_of_mem _ h)
    · rcases ih (sel ++ [uid]) x hx with h | h
      · rcases List.mem_append.mp h with h' | h'
        · exact Or.inl h'
        · exact Or.inr (List.mem_cons.mpr (Or.inl (List.mem_singleton.mp h')))
      · exact Or.inr (List.mem_cons_of_mem _ h)
    · exact Or.inl hx

theorem diversifyPhase2_nodup (k : ℕ) :
    ∀ (cand sel : List String), sel.Nodup → (diversifyPhase2 k cand sel).Nodup := by
  intro cand
  induction cand with
  | nil => intro sel hsel; exact hsel
  | cons uid rest ih =>
    intro sel hsel
    rw [diversifyPhase2]
    split_ifs with h1 h2
    · exact ih sel hsel
    · refine ih (sel ++ [uid]) ?_
      rw [List.nodup_append]
      exact ⟨hsel, List.nodup_singleton uid, by
        intro a ha hb
        rw [List.mem_singleton] at hb
        exact h2 (hb ▸ ha)⟩
    · exact hsel

theorem diversifyPhase2_sel_sub (k : ℕ) :
    ∀ (cand sel : List String) (x : String), x ∈ sel → x ∈ diversifyPhase2 k cand sel := by
  intro cand
  induction cand with
  | nil => intro sel x hx; exact hx
  | cons uid rest ih =>
    intro sel x hx
    rw [diversifyPhase2]
    split_ifs with h1 h2
    · exact ih sel x hx
    · exact ih (sel ++ [uid]) x (List.mem_append_left _ hx)
    · exact hx

theorem diversifyPhase2_complete (k : ℕ) :
    ∀ (cand sel : List String), (diversifyPhase2 k cand sel).length < k →
      ∀ x ∈ cand, x ∈ diversifyPhase2 k cand sel := by
  intro cand
  induction cand with
  | nil => intro sel _ x hx; cases hx
  | cons uid rest ih =>
    intro sel hlen x hx
    rw [diversifyPhase2] at hlen ⊢
    split_ifs at hlen ⊢ with h1 h2
    · rcases List.mem_cons.mp hx with hxe | hx'
      · exact hxe ▸ diversifyPhase2_sel_sub k rest sel uid h2
      · exact ih sel hlen x hx'
    · rcases List.mem_cons.mp hx with hxe | hx'
      · exact hxe ▸ diversifyPhase2_sel_sub k rest (sel ++ [uid]) uid
          (List.mem_append_right _ (List.mem_singleton.mpr rfl))
      · exact ih (sel ++ [uid]) hlen x hx'
    · exact absurd hlen (by omega)

theorem diversify_pick_spec (st : MatchingAgent) (cand : List String) (k : ℕ)
    (hcand : cand.Nodup) :
    (diversify_pick st cand k).Nodup ∧
    (∀ x ∈ diversify_pick st cand k, x ∈ cand) ∧
    (diversify_pick st cand k).length = min k cand.length := by
  have hsel1 : (diversifyPhase1 st k cand [] []).Nodup :=
    diversifyPhase1_nodup st k cand [] [] hcand List.nodup_nil (by intro x _ hx; cases hx)
  have hres : (diversifyPhase2 k cand (diversifyPhase1 st k cand [] [])).Nodup :=
    diversifyPhase2_nodup k cand _ hsel1
  have hsub : ∀ x ∈ diversifyPhase2 k cand (diversifyPhase1 st k cand [] []), x ∈ cand := by
    intro x hx
    rcases diversifyPhase2_sub k cand _ x hx with h | h
    · rcases diversifyPhase1_sub st k cand [] [] x h with h' | h'
      · cases h'
      · exact h'
    · exact h
  refine ⟨(List.take_sublist k _).nodup hres, ?_, ?_⟩
  · intro x hx
    exact hsub x (List.mem_of_mem_take hx)
  · rw [diversify_pick, List.length_take]
    have hle : (diversifyPhase2 k cand (diversifyPhase1 st k cand [] [])).length ≤
        cand.length :=
      (hres.subperm hsub).length_le
    rcases Nat.lt_or_ge (diversifyPhase2 k cand (diversifyPhase1 st k cand [] [])).length k with
      hlt | hge
    · have hcomp := diversifyPhase2_complete k cand _ hlt
      have hge' : cand.length ≤
          (diversifyPhase2 k cand (diversifyPhase1 st k cand [] [])).length :=
        (hcand.subperm hcomp).length_le
      omega
    · omega

theorem select_initial_triplet_spec (st : MatchingAgent) (h : st.uni_ids.Nodup) :
    (select_initial_triplet st).Nodup ∧
    (∀ x ∈ select_initial_triplet st, x ∈ st.uni_ids) ∧
    (select_initial_triplet st).length = min 3 st.uni_ids.length := by
  have hperm := List.perm_insertionSort
    (fun a b => fitScore st b ≤ fitScore st a) st.uni_ids
  have hnd : (List.insertionSort (fun a b => fitScore st b ≤ fitScore st a)
      st.uni_ids).Nodup := hperm.nodup_iff.mpr h
  obtain ⟨h1, h2, h3⟩ := diversify_pick_spec st _ 3 hnd
  refine ⟨h1, ?_, ?_⟩
  · intro x hx
    exact hperm.mem_iff.mp (h2 x hx)
  · rw [select_initial_triplet, h3, hperm.length_eq]

/-- The dict comprehension `{u["id"]: u for u in universities}`: key list in
first-occurrence order. -/
def dictKeys (universities : List Uni) : List String :=
  universities.foldl (fun acc u => if u.id ∈ acc then acc else acc ++ [u.id]) []

/-- The dict comprehension's value for a key: the last record with that id. -/
def dictLookup (universities : List Uni) (uid : String) : Uni :=
  (universities.reverse.find? (fun u => u.id == uid)).getD default

/-- `MatchingAgent.__init__` (lines 124-142).  Note: the constructor performs
no validation at all; on an empty catalog every collection is empty and the
initial triplet is `[]`.  The seeded shuffle `random.Random(rnd_seed).shuffle`
is one fixed permutation of the key list; it is modelled as the identity
permutation, and every property proved about the result is invariant under the
choice of permutation. -/
def initAgent (student : Student) (universities : List Uni) : MatchingAgent :=
  let uni_ids := dictKeys universities
  let base : MatchingAgent :=
    { student := student
      unis := dictLookup universities
      uni_ids := uni_ids
      pref := PreferenceModel.init uni_ids true
      alpha := ALPHA_START
      seen := []
      shortlist := []
      asked_slots := []
      soft_cache := []
      hybrid_cache := []
      triplet := [] }
  { base with
    soft_cache := uni_ids.map (fun u => (u, fitScore base u))
    triplet := select_initial_triplet base }

theorem dictKeys_go (us : List Uni) :
    ∀ acc : List String, (∀ u ∈ us, u.id ∉ acc) → (us.map Uni.id).Nodup →
      us.foldl (fun acc u => if u.id ∈ acc then acc else acc ++ [u.id]) acc =
        acc ++ us.map Uni.id := by
  induction us with
  | nil => intro acc _ _; simp
  | cons u rest ih =>
    intro acc hdisj hnd
    rw [List.foldl_cons, if_neg (hdisj u (List.mem_cons_self _ _))]
    have hnd' : (∀ x ∈ rest, ¬x.id = u.id) ∧ (rest.map Uni.id).Nodup := by
      simpa using hnd
    rw [ih (acc ++ [u.id]) ?_ hnd'.2]
    · simp
    · intro v hv hmem
      rcases List.mem_append.mp hmem with h | h
      · exact hdisj v (List.mem_cons_of_mem _ hv) h
      · exact hnd'.1 v hv (List.mem_singleton.mp h)

theorem dictKeys_eq_map (us : List Uni) (h : (us.map Uni.id).Nodup) :
    dictKeys us = us.map Uni.id := by
  have := dictKeys_go us [] (by intro u _ hx; cases hx) h
  simpa [dictKeys] using this

/-- Claim C7: on any catalog with pairwise-distinct option ids, the initial
subset selection returns pairwise-distinct identifiers all drawn from the
catalog, of size exactly `min 3 totalOptions` — in particular exactly 3 when
the catalog has at least 3 options, and never smaller than
`min(k, totalOptions)`. -/
theorem initial_triplet_distinct_from_catalog (student : Student)
    (universities : List Uni) (h : (universities.map Uni.id).Nodup) :
    (initAgent student universities).triplet.Nodup ∧
    (∀ x ∈ (initAgent student universities).triplet, x ∈ universities.map Uni.id) ∧
    (initAgent student universities).triplet.length = min 3 universities.length ∧
    (3 ≤ universities.length → (initAgent student universities).triplet.length = 3) := by
  have hids : (initAgent student universities).triplet =
      select_initial_triplet
        { student := student
          unis := dictLookup universities
          uni_ids := dictKeys universities
          pref := PreferenceModel.init (dictKeys universities) true
          alpha := ALPHA_START
          seen := []
          shortlist := []
          asked_slots := []
          soft_cache := []
          hybrid_cache := []
          triplet := [] } := rfl
  set base : MatchingAgent :=
    { student := student
      unis := dictLookup universities
      uni_ids := dictKeys universities
      pref := PreferenceModel.init (dictKeys universities) true
      alpha := ALPHA_START
      seen := []
      shortlist := []
      asked_slots := []
      soft_cache := []
      hybrid_cache := []
      triplet := [] } with hbase
  have hkeys : base.uni_ids = universities.map Uni.id := dictKeys_eq_map universities h
  have hnd : base.uni_ids.Nodup := by rw [hkeys]; exact h
  obtain ⟨h1, h2, h3⟩ := select_initial_triplet_spec base hnd
  rw [hids]
  refine ⟨h1, ?_, ?_, ?_⟩
  · intro x hx
    have := h2 x hx
    rwa [hkeys] at this
  · rw [h3, hkeys, List.length_map]
  · intro h3le
    rw [h3, hkeys, List.length_map]
    omega

/-- Witness for claim C7 at a concrete four-option catalog. -/
theorem initial_triplet_distinct_from_catalog_witness :
    let us : List Uni :=
      [⟨"a", ["RIBA"], false, none, none, none, none, false⟩,
       ⟨"b", [], false, some "urban", none, none, none, false⟩,
       ⟨"c", ["ARB"], false, some "rural", none, some 14, none, false⟩,
       ⟨"d", [], false, none, none, none, none, false⟩]
    (us.map Uni.id).Nodup ∧
    ((initAgent ⟨none, none, none, none, none, false⟩ us).triplet.Nodup ∧
      (∀ x ∈ (initAgent ⟨none, none, none, none, none, false⟩ us).triplet,
        x ∈ us.map Uni.id) ∧
      (initAgent ⟨none, none, none, none, none, false⟩ us).triplet.length =
        min 3 us.length ∧
      (3 ≤ us.length →
        (initAgent ⟨none, none, none, none, none, false⟩ us).triplet.length = 3)) :=
  ⟨by decide,
    initial_triplet_distinct_from_catalog ⟨none, none, none, none, none, false⟩ _
      (by decide)⟩

/-- The module-level startup check of `server.py` (lines 37-38): loading an
empty catalog raises `RuntimeError` before any engine is constructed. -/
def loadGuard (universities : List Uni) : Except String Unit :=
  if universities.isEmpty then
    Except.error "No universities found in ./normalized/universities_normalized.json"
  else Except.ok ()

/-- Counterexample for claim C4 as stated: `MatchingAgent.__init__` on an
empty catalog does not fail — its body contains no raising operation on that
input — and returns a fully-formed engine state with empty id list, empty
triplet and empty rating key set. -/
theorem initAgent_empty_succeeds :
    (initAgent ⟨none, none, none, none, none, false⟩ []).uni_ids = [] ∧
    (initAgent ⟨none, none, none, none, none, false⟩ []).triplet = [] ∧
    (initAgent ⟨none, none, none, none, none, false⟩ []).pref.tracked = [] :=
  ⟨rfl, rfl, rfl⟩

/-- Claim C4 (amended): the engine constructor itself succeeds on an empty
catalog (yielding an engine with zero options and an empty triplet, unable to
produce a useful ranking); the explicit empty-catalog construction failure is
enforced one layer up, at server startup, which errors exactly on an empty
loaded catalog and accepts any nonempty one. -/
theorem empty_catalog_guard_at_server (s : Student) (universities : List Uni) :
    (initAgent s []).uni_ids = [] ∧
    (initAgent s []).triplet = [] ∧
    loadGuard [] =
      Except.error "No universities found in ./normalized/universities_normalized.json" ∧
    (universities ≠ [] → loadGuard universities = Except.ok ()) := by
  refine ⟨rfl, rfl, rfl, ?_⟩
  intro h
  rw [loadGuard, if_neg (by simpa using h)]

/-- Witness for claim C4 at a concrete one-option catalog. -/
theorem empty_catalog_guard_at_server_witness :
    ([(⟨"a", [], false, none, none, none, none, false⟩ : Uni)] ≠ ([] : List Uni)) ∧
    ((initAgent ⟨none, none, none, none, none, false⟩ []).uni_ids = [] ∧
      (initAgent ⟨none, none, none, none, none, false⟩ []).triplet = [] ∧
      loadGuard [] =
        Except.error "No universities found in ./normalized/universities_normalized.json" ∧
      loadGuard [⟨"a", [], false, none, none, none, none, false⟩] = Except.ok ()) := by
  refine ⟨by decide, ?_⟩
  obtain ⟨h1, h2, h3, h4⟩ :=
    empty_catalog_guard_at_server ⟨none, none, none, none, none, false⟩
      [⟨"a", [], false, none, none, none, none, false⟩]
  exact ⟨h1, h2, h3, h4 (by decide)⟩

/-- `others = [u for u in self.agent.uni_ids if u not in trip]` (server
line 195). -/
def nonMembers (st : MatchingAgent) : List String :=
  st.uni_ids.filter (fun u => decide (u ∉ st.triplet))

/-- Stable descending sort by a real-valued key:
`others.sort(key=..., reverse=True)` (server line 197).  Python's sort is
stable, so its input-output behaviour is that of any stable sort under the
comes-before relation `f b ≤ f a`. -/
noncomputable def sortDescBy (f : String → ℝ) (l : List String) : List String :=
  @List.insertionSort String (fun a b => f b ≤ f a)
    (fun a b => Real.decidableLE (f b) (f a)) l

/-- The subset-refresh block of `api_answer` (server lines 187-201),
parameterised by the `sess.should_stop()` result.  `worst` is Python's
`min(scored, key=lambda x: x[1])[0]` — the fold keeps the first minimum;
`replacement = others[0]` after the stable descending sort; the empty-triplet
case (where `min` would raise) never arises for a server session, whose
catalog is nonempty. -/
noncomputable def refreshTriplet (stopped : Bool) (st : MatchingAgent) : MatchingAgent :=
  if stopped then st
  else
    match st.triplet with
    | [] => st
    | t :: ts =>
      let worst := ts.foldl
        (fun b a => if hybrid_score st a < hybrid_score st b then a else b) t
      let others := nonMembers st
      if others.isEmpty then st
      else
        let replacement := (sortDescBy (hybrid_score st) others).headD ""
        { st with triplet := st.triplet.set (st.triplet.indexOf worst) replacement }

/-- Spec-side notion: the first element attaining the minimum of `f`
(the tie-break of Python's `min(..., key=...)`). -/
noncomputable def firstArgmin (f : String → ℝ) : List String → Option String
  | [] => none
  | x :: xs => some (xs.foldl (fun b a => if f a < f b then a else b) x)

/-- Spec-side notion: the first element attaining the maximum of `f`
(the element a stable descending sort puts first). -/
noncomputable def firstArgmax (f : String → ℝ) : List String → Option String
  | [] => none
  | x :: xs => some (xs.foldl (fun b a => if f b < f a then a else b) x)

theorem foldlArgmin_mem (f : String → ℝ) (l : List String) :
    ∀ x : String, l.foldl (fun b a => if f a < f b then a else b) x ∈ x :: l := by
  induction l with
  | nil => intro x; exact List.mem_cons_self x []
  | cons y t ih =>
    intro x
    rw [List.foldl_cons]
    rcases List.mem_cons.mp (ih (if f y < f x then y else x)) with h | h
    · rw [h]
      split_ifs
      · exact List.mem_cons_of_mem x (List.mem_cons_self y t)
      · exact List.mem_cons_self x (y :: t)
    · exact List.mem_cons_of_mem x (List.mem_cons_of_mem y h)

theorem foldlArgmin_le (f : String → ℝ) (l : List String) :
    ∀ x : String, ∀ y ∈ x :: l,
      f (l.foldl (fun b a => if f a < f b then a else b) x) ≤ f y := by
  induction l with
  | nil =>
    intro x y hy
    rcases List.mem_cons.mp hy with h | h
    · rw [h]; exact le_refl _
    · cases h
  | cons z t ih =>
    intro x y hy
    rw [List.foldl_cons]
    have hstep_x : f (if f z < f x then z else x) ≤ f x := by
      split_ifs with h
      · exact le_of_lt h
      · exact le_refl _
    have hstep_z : f (if f z < f x then z else x) ≤ f z := by
      split_ifs with h
      · exact le_refl _
      · exact le_of_not_lt h
    have hres : f (t.foldl (fun b a => if f a < f b then a else b)
          (if f z < f x then z else x)) ≤ f (if f z < f x then z else x) :=
      ih (if f z < f x then z else x) _ (List.mem_cons_self _ t)
    rcases List.mem_cons.mp hy with h | h
    · rw [h]; exact le_trans hres hstep_x
    · rcases List.mem_cons.mp h with h' | h'
      · rw [h']; exact le_trans hres hstep_z
      · exact ih (if f z < f x then z else x) y (List.mem_cons_of_mem _ h')

theorem foldlArgmax_mem (f : String → ℝ) (l : List String) :
    ∀ x : String, l.foldl (fun b a => if f b < f a then a else b) x ∈ x :: l := by
  induction l with
  | nil => intro x; exact List.mem_cons_self x []
  | cons y t ih =>
    intro x
    rw [List.foldl_cons]
    rcases List.mem_cons.mp (ih (if f x < f y then y else x)) with h | h
    · rw [h]
      split_ifs
      · exact List.mem_cons_of_mem x (List.mem_cons_self y t)
      · exact List.mem_cons_self x (y :: t)
    · exact List.mem_cons_of_mem x (List.mem_cons_of_mem y h)

theorem foldlArgmax_ge (f : String → ℝ) (l : List String) :
    ∀ x : String, ∀ y ∈ x :: l,
      f y ≤ f (l.foldl (fun b a => if f b < f a then a else b) x) := by
  induction l with
  | nil =>
    intro x y hy
    rcases List.mem_cons.mp hy with h | h
    · rw [h]; exact le_refl _
    · cases h
  | cons z t ih =>
    intro x y hy
    rw [List.foldl_cons]
    have hstep_x : f x ≤ f (if f x < f z then z else x) := by
      split_ifs with h
      · exact le_of_lt h
      · exact le_refl _
    have hstep_z : f z ≤ f (if f x < f z then z else x) := by
      split_ifs with h
      · exact le_refl _
      · exact le_of_not_lt h
    have hres : f (if f x < f z then z else x) ≤
        f (t.foldl (fun b a => if f b < f a then a else b) (if f x < f z then z else x)) :=
      ih (if f x < f z then z else x) _ (List.mem_cons_self _ t)
    rcases List.mem_cons.mp hy with h | h
    · rw [h]; exact le_trans hstep_x hres
    · rcases List.mem_cons.mp h with h' | h'
      · rw [h']; exact le_trans hstep_z hres
      · exact ih (if f x < f z then z else x) y (List.mem_cons_of_mem _ h')

/-- The comes-before relation of the stable descending sort. -/
def descRel (f : String → ℝ) : String → String → Prop := fun a b => f b ≤ f a

/-- Its (classical) decidability, fixed once so unfoldings are syntactic. -/
noncomputable def descRelDec (f : String → ℝ) : DecidableRel (descRel f) :=
  fun a b => Real.decidableLE (f b) (f a)

theorem sortDescBy_eq (f : String → ℝ) (l : List String) :
    sortDescBy f l = @List.insertionSort String (descRel f) (descRelDec f) l := by
  rfl

theorem headD_orderedInsert_step (f : String → ℝ) (a y d : String) (S : List String) :
    ((@List.orderedInsert String (descRel f) (descRelDec f)
        (if f a < f y then y else a) S).headD d) =
    ((@List.orderedInsert String (descRel f) (descRelDec f) a
        (@List.orderedInsert String (descRel f) (descRelDec f) y S)).headD d) := by
  cases S with
  | nil =>
    simp only [List.orderedInsert, List.headD_cons, descRel]
    split_ifs <;> first | rfl | linarith
  | cons h S' =>
    simp only [List.orderedInsert, descRel]
    split_ifs <;> simp only [List.orderedInsert, List.headD_cons, descRel] <;>
      first
        | rfl
        | linarith
        | (split_ifs <;> first | rfl | linarith)

theorem headD_sortDescBy (f : String → ℝ) (d : String) :
    ∀ (l : List String) (x : String),
      (sortDescBy f (x :: l)).headD d =
        l.foldl (fun b a => if f b < f a then a else b) x := by
  intro l
  induction l with
  | nil => intro x; rfl
  | cons y t ih =>
    intro x
    have h1 : sortDescBy f (x :: y :: t) =
        @List.orderedInsert String (descRel f) (descRelDec f) x
          (@List.orderedInsert String (descRel f) (descRelDec f) y
            (@List.insertionSort String (descRel f) (descRelDec f) t)) := rfl
    rw [h1, ← headD_orderedInsert_step f x y d]
    have h2 : (@List.orderedInsert String (descRel f) (descRelDec f)
          (if f x < f y then y else x)
          (@List.insertionSort String (descRel f) (descRelDec f) t)).headD d =
        (sortDescBy f ((if f x < f y then y else x) :: t)).headD d := rfl
    rw [h2, ih, List.foldl_cons]

theorem refreshTriplet_false_eq (st : MatchingAgent) (t : String) (ts : List String)
    (heq : st.triplet = t :: ts) (hne : nonMembers st ≠ []) :
    refreshTriplet false st =
      { st with triplet :=
          (st.triplet.set
            (st.triplet.indexOf
              (ts.foldl
                (fun b a => if hybrid_score st a < hybrid_score st b then a else b) t))
            ((sortDescBy (hybrid_score st) (nonMembers st)).headD "")) } := by
  obtain ⟨o, os, hoth⟩ := List.exists_cons_of_ne_nil hne
  rw [refreshTriplet, if_neg (by simp)]
  split
  · next h => rw [heq] at h; cases h
  · next t' ts' h =>
    rw [heq] at h
    injection h with h1 h2
    subst h1; subst h2
    rw [if_neg (by rw [hoth]; simp)]

/-- Claim C8 (amended): with a nonempty active subset and outside the stopped
state, the refresh replaces the first lowest-hybrid-scoring member of the
subset (Python `min` tie-break: first encountered) with the first
highest-hybrid-scoring non-member (stable descending sort, then `[0]`),
writing it at the removed member's position; it is a no-op in the stopped
state and when no non-member candidates remain.  The incoming option need not
score higher than the outgoing one, and no seen/unseen check is involved. -/
theorem refresh_subset_spec (st : MatchingAgent) (htrip : st.triplet ≠ []) :
    refreshTriplet true st = st ∧
    (nonMembers st = [] → refreshTriplet false st = st) ∧
    (nonMembers st ≠ [] →
      ∃ worst repl,
        firstArgmin (hybrid_score st) st.triplet = some worst ∧
        firstArgmax (hybrid_score st) (nonMembers st) = some repl ∧
        worst ∈ st.triplet ∧
        (∀ m ∈ st.triplet, hybrid_score st worst ≤ hybrid_score st m) ∧
        repl ∈ nonMembers st ∧
        (∀ o ∈ nonMembers st, hybrid_score st o ≤ hybrid_score st repl) ∧
        (refreshTriplet false st).triplet =
          st.triplet.set (st.triplet.indexOf worst) repl) := by
  obtain ⟨t, ts, heq⟩ := List.exists_cons_of_ne_nil htrip
  refine ⟨by rw [refreshTriplet]; rfl, ?_, ?_⟩
  · intro hempty
    rw [refreshTriplet, if_neg (by simp)]
    split
    · rfl
    · rw [if_pos (by rw [hempty]; rfl)]
  · intro hne
    obtain ⟨o, os, hoth⟩ := List.exists_cons_of_ne_nil hne
    refine ⟨ts.foldl (fun b a => if hybrid_score st a < hybrid_score st b then a else b) t,
      (sortDescBy (hybrid_score st) (nonMembers st)).headD "", ?_, ?_, ?_, ?_, ?_, ?_, ?_⟩
    · rw [heq]; rfl
    · rw [hoth, headD_sortDescBy]; rfl
    · rw [heq]; exact foldlArgmin_mem (hybrid_score st) ts t
    · rw [heq]; exact foldlArgmin_le (hybrid_score st) ts t
    · rw [hoth, headD_sortDescBy]
      exact foldlArgmax_mem (hybrid_score st) os o
    · rw [hoth, headD_sortDescBy]
      exact foldlArgmax_ge (hybrid_score st) os o
    · rw [refreshTriplet_false_eq st t ts heq hne]

/-- Catalog option used by the refresh scenario. -/
def c8Uni (i : String) (accs : List String) (ssr : Option ℚ) : Uni :=
  ⟨i, accs, false, none, none, ssr, none, false⟩

/-- A concrete fresh session over four options: the active subset holds the
three best-fitting options, the remaining option fits worst, and no feedback
has been recorded (all ratings at their initial values). -/
def c8State : MatchingAgent :=
  { student := ⟨none, none, none, none, none, false⟩
    unis := fun i =>
      if i = "c" then c8Uni "c" ["RIBA"] (some 25)
      else if i = "d" then c8Uni "d" [] none
      else c8Uni i ["RIBA"] none
    uni_ids := ["a", "b", "c", "d"]
    pref := PreferenceModel.init ["a", "b", "c", "d"] true
    alpha := ALPHA_START
    seen := []
    shortlist := []
    asked_slots := []
    soft_cache := []
    hybrid_cache := []
    triplet := ["a", "b", "c"] }

theorem c8_fit_a : fitScore c8State "a" = 0.798 := by
  have h1 : c8State.unis "a" = c8Uni "a" ["RIBA"] none := by decide
  have h2 : c8State.student = ⟨none, none, none, none, none, false⟩ := rfl
  rw [fitScore, h1, h2]
  norm_num [c8Uni, soft_fit, weightedTotal, fitWeights, acc_score,
    portfolio_score, portfolio_ready_hint, campus_score, budget_score, ssr_score,
    english_score, pmr_score, truthyStr, money_amount]

theorem c8_fit_b : fitScore c8State "b" = 0.798 := by
  have h1 : c8State.unis "b" = c8Uni "b" ["RIBA"] none := by decide
  have h2 : c8State.student = ⟨none, none, none, none, none, false⟩ := rfl
  rw [fitScore, h1, h2]
  norm_num [c8Uni, soft_fit, weightedTotal, fitWeights, acc_score,
    portfolio_score, portfolio_ready_hint, campus_score, budget_score, ssr_score,
    english_score, pmr_score, truthyStr, money_amount]

theorem c8_fit_c : fitScore c8State "c" = 0.778 := by
  have h1 : c8State.unis "c" = c8Uni "c" ["RIBA"] (some 25) := by decide
  have h2 : c8State.student = ⟨none, none, none, none, none, false⟩ := rfl
  rw [fitScore, h1, h2]
  norm_num [c8Uni, soft_fit, weightedTotal, fitWeights, acc_score,
    portfolio_score, portfolio_ready_hint, campus_score, budget_score, ssr_score,
    english_score, pmr_score, truthyStr, money_amount]

theorem c8_fit_d : fitScore c8State "d" = 0.558 := by
  have h1 : c8State.unis "d" = c8Uni "d" [] none := by decide
  have h2 : c8State.student = ⟨none, none, none, none, none, false⟩ := rfl
  rw [fitScore, h1, h2]
  norm_num [c8Uni, soft_fit, weightedTotal, fitWeights, acc_score,
    portfolio_score, portfolio_ready_hint, campus_score, budget_score, ssr_score,
    english_score, pmr_score, truthyStr, money_amount]

theorem c8_hybrid (uid : String) :
    hybrid_score c8State uid = (13 / 20) * (fitScore c8State uid : ℝ) + 7 / 80 := by
  have helo : eloOf c8State.pref uid = 1000 := by
    rw [eloOf]
    split <;> norm_num [c8State, PreferenceModel.init, INITIAL_PREF]
  have hbtl : btlOf c8State.pref uid = 0 := by
    rw [btlOf]
    split <;> norm_num [c8State, PreferenceModel.init]
  have hvals : c8State.pref.tracked.map c8State.pref.elo = [1000, 1000, 1000, 1000] := by
    norm_num [c8State, PreferenceModel.init, INITIAL_PREF]
  have heN : eloNorm c8State uid = 0 := by
    rw [eloNorm]
    simp only [hvals, helo]
    rw [if_pos (by norm_num)]
    have hmn : listMin [(1000 : ℝ), 1000, 1000, 1000] = 1000 := by
      simp [listMin, min_self]
    have hmx : listMax [(1000 : ℝ), 1000, 1000, 1000] = 1000 := by
      simp [listMax, max_self]
    rw [hmn, hmx]
    norm_num
  have hbN : btlNorm c8State uid = 1 / 2 := by
    rw [btlNorm, hbtl, neg_zero, Real.exp_zero]
    norm_num
  have hpc : prefComponent c8State uid = 1 / 4 := by
    rw [prefComponent, heN, hbN]
    norm_num
  have halpha : (c8State.alpha : ℝ) = 13 / 20 := by
    norm_num [c8State, ALPHA_START]
  rw [hybrid_score, hpc, halpha]
  ring

theorem c8_nonMembers : nonMembers c8State = ["d"] := by decide

/-- Counterexample for the "stronger unseen option" part of claim C8: in the
fresh four-option session `c8State` the refresh removes subset member `"c"`
and inserts the only non-member `"d"`, whose hybrid score is strictly lower —
the incoming option is weaker than the outgoing one. -/
theorem refresh_replacement_weaker :
    (refreshTriplet false c8State).triplet = ["a", "b", "d"] ∧
    "c" ∈ c8State.triplet ∧
    "d" ∉ c8State.triplet ∧
    hybrid_score c8State "d" < hybrid_score c8State "c" := by
  have hdc : hybrid_score c8State "d" < hybrid_score c8State "c" := by
    rw [c8_hybrid "d", c8_hybrid "c", c8_fit_d, c8_fit_c]
    push_cast
    norm_num
  have hba : ¬ hybrid_score c8State "b" < hybrid_score c8State "a" := by
    rw [c8_hybrid "b", c8_hybrid "a", c8_fit_b, c8_fit_a]
    exact lt_irrefl _
  have hca : hybrid_score c8State "c" < hybrid_score c8State "a" := by
    rw [c8_hybrid "c", c8_hybrid "a", c8_fit_c, c8_fit_a]
    push_cast
    norm_num
  have hw : (["b", "c"] : List String).foldl
      (fun b a => if hybrid_score c8State a < hybrid_score c8State b then a else b) "a" =
      "c" := by
    rw [List.foldl_cons, if_neg hba, List.foldl_cons, if_pos hca, List.foldl_nil]
  have hne : nonMembers c8State ≠ [] := by rw [c8_nonMembers]; exact List.cons_ne_nil _ _
  have hrw := refreshTriplet_false_eq c8State "a" ["b", "c"] rfl hne
  refine ⟨?_, by decide, by decide, hdc⟩
  rw [hrw]
  show c8State.triplet.set (c8State.triplet.indexOf
      ((["b", "c"] : List String).foldl
        (fun b a => if hybrid_score c8State a < hybrid_score c8State b then a else b) "a"))
    ((sortDescBy (hybrid_score c8State) (nonMembers c8State)).headD "") = ["a", "b", "d"]
  rw [hw, c8_nonMembers, headD_sortDescBy]
  rfl

/-- Witness for claim C8: the refresh specification applied at the concrete
state `c8State`. -/
theorem refresh_subset_spec_witness :
    c8State.triplet ≠ [] ∧
    (refreshTriplet true c8State = c8State ∧
      (nonMembers c8State = [] → refreshTriplet false c8State = c8State) ∧
      (nonMembers c8State ≠ [] →
        ∃ worst repl,
          firstArgmin (hybrid_score c8State) c8State.triplet = some worst ∧
          firstArgmax (hybrid_score c8State) (nonMembers c8State) = some repl ∧
          worst ∈ c8State.triplet ∧
          (∀ m ∈ c8State.triplet, hybrid_score c8State worst ≤ hybrid_score c8State m) ∧
          repl ∈ nonMembers c8State ∧
          (∀ o ∈ nonMembers c8State,
            hybrid_score c8State o ≤ hybrid_score c8State repl) ∧
          (refreshTriplet false c8State).triplet =
            c8State.triplet.set (c8State.triplet.indexOf worst) repl)) :=
  ⟨by decide, refresh_subset_spec c8State (by decide)⟩
